import Mathlib

/-!
Shallow embedding of vendor/github.com/u-root/dhcp4/dhcp4client/conn_linux.go
(package dhcp4client): a broadcast UDP packet conn built on a raw
link-layer socket.

Byte sequences are lists of naturals (one entry per byte), Go ints are
Lean Int, and 16-bit header fields are stored as two big-endian bytes
exactly as the wire format prescribes.

The source file provides BroadcastMac, udpMatch, ReadFrom, WriteTo and
udp4pkt.  The IPv4/UDP header codec (github.com/google/netstack
tcpip/header), the internal byte buffer and the Go standard library net
helpers are external collaborators whose behaviour is modelled from the
spec (sections 4.2, 4.3 and 6): standard header layouts and the
ones-complement internet checksum.  The raw frame transport is a
parameter (a function for the write path, a list of pending frames for
the read path).
-/

/-- A byte string: each entry is one byte value. -/
abbrev Bytes := List Nat

/-- Go net.UDPAddr: an optional IP (none is the Go nil IP) and an int port. -/
structure UDPAddr where
  ip : Option Bytes
  port : Int
deriving DecidableEq, Repr

/-- Errors surfaced by the conn: the type-mismatch error produced by
WriteTo for a destination that is not a UDP address, and arbitrary
errors of the underlying raw transport, passed through verbatim. -/
inductive ConnError where
  | mustSupplyUDPAddr
  | transport (code : Nat)
deriving DecidableEq, Repr

/-- A net.Addr argument handed to WriteTo: either a UDP address or an
address of some other kind (the kind is irrelevant, only that the type
assertion to a UDP address fails). -/
inductive NetAddr where
  | udp (a : UDPAddr)
  | other (kind : Nat)

/-- raw.Addr: a link-layer address carrying a hardware address. -/
structure RawAddr where
  hardwareAddr : Bytes
deriving DecidableEq, Repr

/-- BroadcastMac from conn_linux.go: six bytes, all bits set. -/
def BroadcastMac : Bytes := [255, 255, 255, 255, 255, 255]

/-- The 12-byte marker that introduces an IPv4 address embedded in the
16-byte IPv6 form, from the Go standard library net package. -/
def v4InV6Head : Bytes := [0, 0, 0, 0, 0, 0, 0, 0, 0, 0, 255, 255]

/-- Go net.IP.To4: the 4-byte form of an IPv4 address, none when the
address is not IPv4.  A Go nil IP is handled by the caller. -/
def ipTo4 (ip : Bytes) : Option Bytes :=
  if ip.length = 4 then some ip
  else if ip.length = 16 ∧ ip.take 12 = v4InV6Head then some (ip.drop 12)
  else none

/-- Go net.IP.Equal: bytewise equality, with a 4-byte IPv4 address also
equal to its 16-byte IPv4-in-IPv6 form.  A Go nil IP behaves as the
empty byte string here. -/
def ipEqual (ip x : Bytes) : Bool :=
  if ip.length = x.length then ip == x
  else if ip.length = 4 ∧ x.length = 16 then (x.take 12 == v4InV6Head) && (ip == x.drop 12)
  else if ip.length = 16 ∧ x.length = 4 then (ip.take 12 == v4InV6Head) && (x == ip.drop 12)
  else false

/-- The bytes of a possibly nil Go net.IP (nil acts as the empty slice). -/
def ipBytes : Option Bytes → Bytes
  | none => []
  | some b => b

/-- udpMatch from conn_linux.go.  A nil bound matches everything;
otherwise a present bound IP must Equal the candidate IP, and the bound
port must equal the candidate port. -/
def udpMatch (addr : UDPAddr) (bound : Option UDPAddr) : Bool :=
  match bound with
  | none => true
  | some b =>
    match b.ip with
    | some bip => if !ipEqual bip (ipBytes addr.ip) then false else b.port == addr.port
    | none => b.port == addr.port

/-- Byte i of a byte string (reads past the end give 0; the Go code
never reads past the end on the inputs the claims are about). -/
def byteAt : Bytes → Nat → Nat
  | [], _ => 0
  | b :: _, 0 => b
  | _ :: t, i + 1 => byteAt t i

/-- A 16-bit value as two big-endian bytes. -/
def be16 (v : Nat) : Bytes := [v / 256 % 256, v % 256]

/-- The Go conversion uint16(p) of an int p. -/
def u16ofInt (p : Int) : Nat := (p % 65536).toNat

/-- Modelled from the spec (section 6): the 16-bit big-endian words of a
byte string, a trailing odd byte padded with a zero low byte, as the
internet checksum prescribes. -/
def words16 : Bytes → List Nat
  | [] => []
  | [b] => [b * 256]
  | b0 :: b1 :: rest => (b0 * 256 + b1) :: words16 rest

/-- The plain sum of the 16-bit words of a byte string. -/
def sum16 (bs : Bytes) : Nat := (words16 bs).sum

/-- End-around-carry folding of a sum to 16 bits, with explicit fuel
(the fuel only bounds the recursion; foldCarry supplies enough). -/
def foldCarryAux : Nat → Nat → Nat
  | 0, x => x
  | fuel + 1, x => if x < 65536 then x else foldCarryAux fuel (x % 65536 + x / 65536)

/-- The ones-complement sum of a value, folded to 16 bits. -/
def foldCarry (x : Nat) : Nat := foldCarryAux x x

/-- Modelled from the spec (sections 4.2 and 6): the internet checksum
of a byte string, the ones-complement of the ones-complement sum of its
16-bit big-endian words. -/
def checksum16 (bs : Bytes) : Nat := 65535 - foldCarry (sum16 bs)

/-- The destination field of the IPv4 header receives exactly four
bytes: a shorter address (the empty one that To4 yields for a non-IPv4
input) leaves the remaining bytes zero, as the codec Encode copy does. -/
def padTo4 (a : Bytes) : Bytes := a.take 4 ++ List.replicate (4 - a.length) 0

/-- The address bytes udp4pkt obtains from ip.To4() on a possibly nil IP
(Go To4 on nil gives nil, modelled as the empty byte string). -/
def addrTo4 (ip : Option Bytes) : Bytes :=
  match ip with
  | none => []
  | some b => (ipTo4 b).getD []

/-- The four source or destination bytes written into the IPv4 header
for a UDP address. -/
def addrField (a : UDPAddr) : Bytes := padTo4 (addrTo4 a.ip)

/-- Modelled from the spec (section 6): the 20-byte IPv4 header as the
netstack codec Encode lays it out for the fields udp4pkt sets: the
version/IHL byte (version 4, IHL in 32-bit words stored divided by 4),
zero TOS, the total length, zero identification and fragment fields,
TTL, protocol, checksum, then source and destination address bytes. -/
def ipv4HeaderBytes (ihl totalLength ttl protocol cksum : Nat) (src dst : Bytes) : Bytes :=
  [(4 * 16 + ihl / 4) % 256, 0] ++ be16 totalLength ++ [0, 0, 0, 0] ++
    [ttl % 256, protocol % 256] ++ be16 cksum ++ src ++ dst

/-- Modelled from the spec (section 6): the 8-byte UDP header, source
port, destination port, length and checksum, big-endian. -/
def udpHeaderBytes (srcPort dstPort len cksum : Nat) : Bytes :=
  be16 srcPort ++ be16 dstPort ++ be16 len ++ be16 cksum

/-- Modelled from the spec (glossary): the IPv4 pseudo-header the UDP
checksum covers: source address, destination address, a zero byte, the
protocol number, and the UDP length. -/
def pseudoHeaderBytes (src dst : Bytes) (udpLength : Nat) : Bytes :=
  src ++ dst ++ [0, 17] ++ be16 udpLength

/-- The value of the IPv4 total length field set by udp4pkt:
uint16(ipLen + udpLen + len(packet)). -/
def ipTotalLen (packet : Bytes) : Nat := (20 + 8 + packet.length) % 65536

/-- The value of the UDP length field set by udp4pkt:
uint16(udpLen + len(packet)). -/
def udpLenField (packet : Bytes) : Nat := (8 + packet.length) % 65536

/-- The IPv4 header udp4pkt encodes, with a given checksum field. -/
def ipv4hdrOf (packet : Bytes) (dest src : UDPAddr) (ck : Nat) : Bytes :=
  ipv4HeaderBytes 20 (ipTotalLen packet) 30 17 ck (addrField src) (addrField dest)

/-- The IPv4 header checksum udp4pkt stores: the complement of the
checksum of the header with a zero checksum field. -/
def ipCkOf (packet : Bytes) (dest src : UDPAddr) : Nat :=
  checksum16 (ipv4hdrOf packet dest src 0)

/-- The UDP header udp4pkt encodes, with a given checksum field. -/
def udphdrOf (packet : Bytes) (dest src : UDPAddr) (ck : Nat) : Bytes :=
  udpHeaderBytes (u16ofInt src.port) (u16ofInt dest.port) (udpLenField packet) ck

/-- The pseudo-header for the UDP checksum of a udp4pkt frame. -/
def pseudoOf (packet : Bytes) (dest src : UDPAddr) : Bytes :=
  pseudoHeaderBytes (addrField src) (addrField dest) (udpLenField packet)

/-- The UDP checksum udp4pkt stores: the complement of the checksum over
pseudo-header, UDP header with zero checksum field, and payload. -/
def udpCkOf (packet : Bytes) (dest src : UDPAddr) : Nat :=
  checksum16 (pseudoOf packet dest src ++ udphdrOf packet dest src 0 ++ packet)

/-- udp4pkt from conn_linux.go: the full outbound frame, IPv4 header
followed by UDP header followed by payload. -/
def udp4pkt (packet : Bytes) (dest src : UDPAddr) : Bytes :=
  ipv4hdrOf packet dest src (ipCkOf packet dest src) ++
    udphdrOf packet dest src (udpCkOf packet dest src) ++ packet

/-- WriteTo from conn_linux.go.  The raw transport write is the
parameter tx; the second component records every frame handed to it,
with its link-layer address.  A destination that is not a UDP address
yields the type-mismatch error with zero bytes and no transmit.  The Go
code passes the possibly nil boundAddr into udp4pkt, which dereferences
it unconditionally, so a nil boundAddr panics: the none result. -/
def writeTo (tx : Bytes → RawAddr → Nat × Option ConnError) (b : Bytes) (addr : NetAddr)
    (boundAddr : Option UDPAddr) :
    Option (Nat × Option ConnError) × List (Bytes × RawAddr) :=
  match addr with
  | NetAddr.other _ => (some (0, some ConnError.mustSupplyUDPAddr), [])
  | NetAddr.udp udpAddr =>
    match boundAddr with
    | none => (none, [])
    | some src =>
      (some (tx (udp4pkt b udpAddr src) ⟨BroadcastMac⟩),
        [(udp4pkt b udpAddr src, ⟨BroadcastMac⟩)])

/-- A raw transport whose write accepts the whole frame and reports the
number of bytes it wrote, the normal behaviour of a working socket. -/
def fullTx : Bytes → RawAddr → Nat × Option ConnError :=
  fun frame _ => (frame.length, none)

/-- The header length the reader takes from the IPv4 header length
field: low nibble of byte 0, in 32-bit words. -/
def headerLengthOf (pkt : Bytes) : Nat := byteAt pkt 0 % 16 * 4

/-- The variable-length IPv4 header the reader consumes. -/
def ipHeaderOf (pkt : Bytes) : Bytes := pkt.take (headerLengthOf pkt)

/-- The bytes following the IPv4 header. -/
def ipPayloadOf (pkt : Bytes) : Bytes := pkt.drop (headerLengthOf pkt)

/-- The transport protocol field of the consumed IPv4 header (byte 9). -/
def transportProtocolOf (pkt : Bytes) : Nat := byteAt (ipHeaderOf pkt) 9

/-- The 8-byte UDP header the reader consumes next. -/
def udpHeaderOf (pkt : Bytes) : Bytes := (ipPayloadOf pkt).take 8

/-- The UDP payload: everything after the UDP header. -/
def udpPayloadOf (pkt : Bytes) : Bytes := (ipPayloadOf pkt).drop 8

/-- The destination address bytes of the consumed IPv4 header. -/
def destIPOf (pkt : Bytes) : Bytes := ((ipHeaderOf pkt).drop 16).take 4

/-- The destination port of the consumed UDP header. -/
def destPortOf (pkt : Bytes) : Nat :=
  byteAt (udpHeaderOf pkt) 2 * 256 + byteAt (udpHeaderOf pkt) 3

/-- The UDP address ReadFrom constructs from a frame: IPv4 destination
address and UDP destination port. -/
def decodedAddr (pkt : Bytes) : UDPAddr :=
  ⟨some (destIPOf pkt), (destPortOf pkt : Int)⟩

/-- ReadFrom from conn_linux.go, over the pending inbound frames of the
raw transport.  blen is the length of the caller buffer b, so each raw
read sees at most 60 + 8 + blen bytes of the frame.  A transport error
is returned at once; a non-UDP frame or a frame whose decoded address
fails udpMatch is discarded and the loop continues; a match returns the
copied byte count (the copy into b) together with the decoded address
and the bytes written into b.  An empty pending list means the call is
still blocked: the none result. -/
def readFrom (boundAddr : Option UDPAddr) (blen : Nat) :
    List (Except ConnError Bytes) → Option (Except ConnError (Nat × UDPAddr × Bytes))
  | [] => none
  | Except.error e :: _ => some (Except.error e)
  | Except.ok f :: rest =>
    let pkt := f.take (60 + 8 + blen)
    if transportProtocolOf pkt ≠ 17 then readFrom boundAddr blen rest
    else
      if !udpMatch (decodedAddr pkt) boundAddr then readFrom boundAddr blen rest
      else some (Except.ok
        (min blen (udpPayloadOf pkt).length, decodedAddr pkt, (udpPayloadOf pkt).take blen))

/-- The TTL field of the consumed IPv4 header. -/
def ttlFieldOf (pkt : Bytes) : Nat := byteAt (ipHeaderOf pkt) 8

/-- The total length field of the consumed IPv4 header. -/
def ipTotalLengthFieldOf (pkt : Bytes) : Nat :=
  byteAt (ipHeaderOf pkt) 2 * 256 + byteAt (ipHeaderOf pkt) 3

/-- The checksum field of the consumed IPv4 header. -/
def ipCksumFieldOf (pkt : Bytes) : Nat :=
  byteAt (ipHeaderOf pkt) 10 * 256 + byteAt (ipHeaderOf pkt) 11

/-- The source address bytes of the consumed IPv4 header. -/
def srcIPOf (pkt : Bytes) : Bytes := ((ipHeaderOf pkt).drop 12).take 4

/-- The length field of the consumed UDP header. -/
def udpLengthFieldOf (pkt : Bytes) : Nat :=
  byteAt (udpHeaderOf pkt) 4 * 256 + byteAt (udpHeaderOf pkt) 5

/-- The checksum field of the consumed UDP header. -/
def udpCksumFieldOf (pkt : Bytes) : Nat :=
  byteAt (udpHeaderOf pkt) 6 * 256 + byteAt (udpHeaderOf pkt) 7

/-- A byte string with the two bytes at positions i and i+1 replaced by
zeros: a header with its checksum field zeroed, for independent
recomputation of the checksum. -/
def zeroChecksumAt (i : Nat) (l : Bytes) : Bytes := l.take i ++ [0, 0] ++ l.drop (i + 2)

/-- The pseudo-header recomputed from the fields of a received frame:
source address, destination address, zero byte, protocol field, UDP
length field. -/
def pseudoFromFrame (pkt : Bytes) : Bytes :=
  srcIPOf pkt ++ destIPOf pkt ++ [0, transportProtocolOf pkt] ++ be16 (udpLengthFieldOf pkt)

/-- The Address Matcher contract exactly as the spec words it (section
4.1): an absent bound filter always matches; a present bound IP must
equal the candidate IP, an absent one is not compared; the bound port
must always equal the candidate port. -/
def specMatches (candidate : UDPAddr) (bound : Option UDPAddr) : Bool :=
  match bound with
  | none => true
  | some b =>
    (match b.ip with
     | some bip => ipEqual bip (ipBytes candidate.ip)
     | none => true) && (b.port == candidate.port)

/-- A sample destination address for witnesses: 255.255.255.255:67. -/
def destW : UDPAddr := ⟨some [255, 255, 255, 255], 67⟩

/-- A sample bound (source) address for witnesses: 0.0.0.0:68. -/
def srcW : UDPAddr := ⟨some [0, 0, 0, 0], 68⟩

/-- The fully explicit 28 header bytes of a udp4pkt frame, as a function
of the 16-bit field values (total length t, IPv4 checksum c, source
port sp, destination port dp, UDP length l, UDP checksum u) and the
eight address bytes.  Only used to state and prove structure lemmas. -/
def hdr28 (t c sp dp l u s1 s2 s3 s4 d1 d2 d3 d4 : Nat) : Bytes :=
  [69, 0, t / 256 % 256, t % 256, 0, 0, 0, 0, 30, 17, c / 256 % 256, c % 256,
   s1, s2, s3, s4, d1, d2, d3, d4,
   sp / 256 % 256, sp % 256, dp / 256 % 256, dp % 256,
   l / 256 % 256, l % 256, u / 256 % 256, u % 256]

/-- The explicit 20 bytes of the IPv4 header of a udp4pkt frame. -/
def ipLit20 (t c s1 s2 s3 s4 d1 d2 d3 d4 : Nat) : Bytes :=
  [69, 0, t / 256 % 256, t % 256, 0, 0, 0, 0, 30, 17, c / 256 % 256, c % 256,
   s1, s2, s3, s4, d1, d2, d3, d4]

/-- The explicit 8 bytes of the UDP header of a udp4pkt frame. -/
def udpLit8 (sp dp l u : Nat) : Bytes :=
  [sp / 256 % 256, sp % 256, dp / 256 % 256, dp % 256, l / 256 % 256, l % 256,
   u / 256 % 256, u % 256]

/-- The explicit 12 bytes of the pseudo-header over given address bytes
and UDP length field value. -/
def pseudoLit12 (s1 s2 s3 s4 d1 d2 d3 d4 lf : Nat) : Bytes :=
  [s1, s2, s3, s4, d1, d2, d3, d4, 0, 17] ++ be16 lf

/-! ## Helper lemmas: end-around-carry folding -/

theorem foldCarryAux_lt (fuel x : Nat) (h : x ≤ fuel + 65535) : foldCarryAux fuel x < 65536 := by
  induction fuel generalizing x with
  | zero => simp only [foldCarryAux]; omega
  | succ n ih =>
    simp only [foldCarryAux]
    split
    · omega
    · exact ih _ (by omega)

theorem foldCarryAux_mod (fuel x : Nat) : foldCarryAux fuel x % 65535 = x % 65535 := by
  induction fuel generalizing x with
  | zero => rfl
  | succ n ih =>
    simp only [foldCarryAux]
    split
    · rfl
    · rw [ih]; omega

theorem foldCarryAux_le (fuel x : Nat) : foldCarryAux fuel x ≤ x := by
  induction fuel generalizing x with
  | zero => exact Nat.le_refl x
  | succ n ih =>
    simp only [foldCarryAux]
    split
    · exact Nat.le_refl x
    · exact Nat.le_trans (ih _) (by omega)

theorem foldCarryAux_pos (fuel x : Nat) (h : 0 < x) : 0 < foldCarryAux fuel x := by
  induction fuel generalizing x with
  | zero => exact h
  | succ n ih =>
    simp only [foldCarryAux]
    split
    · exact h
    · exact ih _ (by omega)

theorem foldCarry_lt (x : Nat) : foldCarry x < 65536 :=
  foldCarryAux_lt x x (by omega)

theorem foldCarry_mod (x : Nat) : foldCarry x % 65535 = x % 65535 :=
  foldCarryAux_mod x x

theorem foldCarry_le (x : Nat) : foldCarry x ≤ x :=
  foldCarryAux_le x x

theorem foldCarry_pos (x : Nat) (h : 0 < x) : 0 < foldCarry x :=
  foldCarryAux_pos x x h

theorem foldCarry_eq_of_multiple (x : Nat) (h0 : 0 < x) (hm : x % 65535 = 0) :
    foldCarry x = 65535 := by
  have h1 := foldCarry_lt x
  have h2 := foldCarry_mod x
  have h3 := foldCarry_pos x h0
  omega

/-- The key validation fact: adding the stored complement back into the
sum and folding always yields the all-ones word. -/
theorem foldCarry_valid (S : Nat) : foldCarry (S + (65535 - foldCarry S)) = 65535 := by
  have h1 := foldCarry_lt S
  have h2 := foldCarry_mod S
  have h3 := foldCarry_le S
  exact foldCarry_eq_of_multiple _ (by omega) (by omega)

theorem checksum16_lt (bs : Bytes) : checksum16 bs < 65536 := by
  unfold checksum16; omega

/-! ## Helper lemmas: 16-bit words and sums -/

theorem words16_append : ∀ (A B : Bytes), A.length % 2 = 0 →
    words16 (A ++ B) = words16 A ++ words16 B
  | [], _, _ => rfl
  | [_], _, h => by simp at h
  | a :: b :: A, B, h => by
    simp only [List.cons_append, words16, List.append_eq]
    rw [words16_append A B (by simp at h; omega)]

theorem sum16_append (A B : Bytes) (h : A.length % 2 = 0) :
    sum16 (A ++ B) = sum16 A + sum16 B := by
  rw [sum16, sum16, sum16, words16_append A B h, List.sum_append]

/-! ## Helper lemmas: frame structure -/

theorem exists_four (a : Bytes) (h : a.length = 4) :
    ∃ x1 x2 x3 x4, a = [x1, x2, x3, x4] := by
  cases a with
  | nil => simp only [List.length_nil] at h; omega
  | cons x1 t =>
    cases t with
    | nil => simp only [List.length_cons, List.length_nil] at h; omega
    | cons x2 t =>
      cases t with
      | nil => simp only [List.length_cons, List.length_nil] at h; omega
      | cons x3 t =>
        cases t with
        | nil => simp only [List.length_cons, List.length_nil] at h; omega
        | cons x4 t =>
          cases t with
          | nil => exact ⟨x1, x2, x3, x4, rfl⟩
          | cons y t => simp only [List.length_cons, List.length_nil] at h; omega

theorem padTo4_length (a : Bytes) : (padTo4 a).length = 4 := by
  simp only [padTo4, List.length_append, List.length_take, List.length_replicate]
  omega

theorem addrField_length (a : UDPAddr) : (addrField a).length = 4 := by
  unfold addrField; exact padTo4_length _

theorem addrField_eq_of_ip4 (a : UDPAddr) (dip : Bytes) (hip : a.ip = some dip)
    (h4 : dip.length = 4) : addrField a = dip := by
  have h1 : addrTo4 a.ip = dip := by
    rw [hip]
    show (ipTo4 dip).getD [] = dip
    unfold ipTo4
    rw [if_pos h4]
    rfl
  unfold addrField
  rw [h1]
  unfold padTo4
  rw [List.take_of_length_le (by omega), h4]
  simp

theorem hdr28_length (t c sp dp l u s1 s2 s3 s4 d1 d2 d3 d4 : Nat) :
    (hdr28 t c sp dp l u s1 s2 s3 s4 d1 d2 d3 d4).length = 28 := rfl

theorem ipv4hdrOf_lit (packet : Bytes) (dest src : UDPAddr) (c : Nat)
    (s1 s2 s3 s4 d1 d2 d3 d4 : Nat)
    (hs : addrField src = [s1, s2, s3, s4]) (hd : addrField dest = [d1, d2, d3, d4]) :
    ipv4hdrOf packet dest src c = ipLit20 (ipTotalLen packet) c s1 s2 s3 s4 d1 d2 d3 d4 := by
  unfold ipv4hdrOf ipv4HeaderBytes
  rw [hs, hd]
  rfl

theorem udphdrOf_lit (packet : Bytes) (dest src : UDPAddr) (c : Nat) :
    udphdrOf packet dest src c =
      udpLit8 (u16ofInt src.port) (u16ofInt dest.port) (udpLenField packet) c := rfl

theorem pseudoOf_lit (packet : Bytes) (dest src : UDPAddr)
    (s1 s2 s3 s4 d1 d2 d3 d4 : Nat)
    (hs : addrField src = [s1, s2, s3, s4]) (hd : addrField dest = [d1, d2, d3, d4]) :
    pseudoOf packet dest src = pseudoLit12 s1 s2 s3 s4 d1 d2 d3 d4 (udpLenField packet) := by
  unfold pseudoOf pseudoHeaderBytes
  rw [hs, hd]
  rfl

theorem udp4pkt_cons (packet : Bytes) (dest src : UDPAddr)
    (s1 s2 s3 s4 d1 d2 d3 d4 : Nat)
    (hs : addrField src = [s1, s2, s3, s4]) (hd : addrField dest = [d1, d2, d3, d4]) :
    udp4pkt packet dest src =
      hdr28 (ipTotalLen packet) (ipCkOf packet dest src) (u16ofInt src.port)
        (u16ofInt dest.port) (udpLenField packet) (udpCkOf packet dest src)
        s1 s2 s3 s4 d1 d2 d3 d4 ++ packet := by
  unfold udp4pkt
  rw [ipv4hdrOf_lit packet dest src _ s1 s2 s3 s4 d1 d2 d3 d4 hs hd, udphdrOf_lit]
  rfl

theorem udp4pkt_length (packet : Bytes) (dest src : UDPAddr) :
    (udp4pkt packet dest src).length = 28 + packet.length := by
  obtain ⟨s1, s2, s3, s4, hs⟩ := exists_four (addrField src) (addrField_length src)
  obtain ⟨d1, d2, d3, d4, hd⟩ := exists_four (addrField dest) (addrField_length dest)
  rw [udp4pkt_cons packet dest src s1 s2 s3 s4 d1 d2 d3 d4 hs hd, List.length_append,
    hdr28_length]

theorem headerLengthOf_hdr28 (t c sp dp l u s1 s2 s3 s4 d1 d2 d3 d4 : Nat) (q : Bytes) :
    headerLengthOf (hdr28 t c sp dp l u s1 s2 s3 s4 d1 d2 d3 d4 ++ q) = 20 := by
  have h0 : byteAt (hdr28 t c sp dp l u s1 s2 s3 s4 d1 d2 d3 d4 ++ q) 0 = 69 := rfl
  unfold headerLengthOf
  rw [h0]

theorem ipHeaderOf_hdr28 (t c sp dp l u s1 s2 s3 s4 d1 d2 d3 d4 : Nat) (q : Bytes) :
    ipHeaderOf (hdr28 t c sp dp l u s1 s2 s3 s4 d1 d2 d3 d4 ++ q) =
      ipLit20 t c s1 s2 s3 s4 d1 d2 d3 d4 := by
  unfold ipHeaderOf
  rw [headerLengthOf_hdr28]
  rfl

theorem ipPayloadOf_hdr28 (t c sp dp l u s1 s2 s3 s4 d1 d2 d3 d4 : Nat) (q : Bytes) :
    ipPayloadOf (hdr28 t c sp dp l u s1 s2 s3 s4 d1 d2 d3 d4 ++ q) =
      udpLit8 sp dp l u ++ q := by
  unfold ipPayloadOf
  rw [headerLengthOf_hdr28]
  rfl

theorem udpHeaderOf_hdr28 (t c sp dp l u s1 s2 s3 s4 d1 d2 d3 d4 : Nat) (q : Bytes) :
    udpHeaderOf (hdr28 t c sp dp l u s1 s2 s3 s4 d1 d2 d3 d4 ++ q) =
      udpLit8 sp dp l u := by
  unfold udpHeaderOf
  rw [ipPayloadOf_hdr28]
  rfl

theorem udpPayloadOf_hdr28 (t c sp dp l u s1 s2 s3 s4 d1 d2 d3 d4 : Nat) (q : Bytes) :
    udpPayloadOf (hdr28 t c sp dp l u s1 s2 s3 s4 d1 d2 d3 d4 ++ q) = q := by
  unfold udpPayloadOf
  rw [ipPayloadOf_hdr28]
  rfl

theorem transportProtocolOf_hdr28 (t c sp dp l u s1 s2 s3 s4 d1 d2 d3 d4 : Nat) (q : Bytes) :
    transportProtocolOf (hdr28 t c sp dp l u s1 s2 s3 s4 d1 d2 d3 d4 ++ q) = 17 := by
  unfold transportProtocolOf
  rw [ipHeaderOf_hdr28]
  rfl

theorem destIPOf_hdr28 (t c sp dp l u s1 s2 s3 s4 d1 d2 d3 d4 : Nat) (q : Bytes) :
    destIPOf (hdr28 t c sp dp l u s1 s2 s3 s4 d1 d2 d3 d4 ++ q) = [d1, d2, d3, d4] := by
  unfold destIPOf
  rw [ipHeaderOf_hdr28]
  rfl

theorem srcIPOf_hdr28 (t c sp dp l u s1 s2 s3 s4 d1 d2 d3 d4 : Nat) (q : Bytes) :
    srcIPOf (hdr28 t c sp dp l u s1 s2 s3 s4 d1 d2 d3 d4 ++ q) = [s1, s2, s3, s4] := by
  unfold srcIPOf
  rw [ipHeaderOf_hdr28]
  rfl

theorem ttlFieldOf_hdr28 (t c sp dp l u s1 s2 s3 s4 d1 d2 d3 d4 : Nat) (q : Bytes) :
    ttlFieldOf (hdr28 t c sp dp l u s1 s2 s3 s4 d1 d2 d3 d4 ++ q) = 30 := by
  unfold ttlFieldOf
  rw [ipHeaderOf_hdr28]
  rfl

theorem ipTotalLengthFieldOf_hdr28 (t c sp dp l u s1 s2 s3 s4 d1 d2 d3 d4 : Nat) (q : Bytes) :
    ipTotalLengthFieldOf (hdr28 t c sp dp l u s1 s2 s3 s4 d1 d2 d3 d4 ++ q) =
      t / 256 % 256 * 256 + t % 256 := by
  unfold ipTotalLengthFieldOf
  rw [ipHeaderOf_hdr28]
  rfl

theorem ipCksumFieldOf_hdr28 (t c sp dp l u s1 s2 s3 s4 d1 d2 d3 d4 : Nat) (q : Bytes) :
    ipCksumFieldOf (hdr28 t c sp dp l u s1 s2 s3 s4 d1 d2 d3 d4 ++ q) =
      c / 256 % 256 * 256 + c % 256 := by
  unfold ipCksumFieldOf
  rw [ipHeaderOf_hdr28]
  rfl

theorem udpLengthFieldOf_hdr28 (t c sp dp l u s1 s2 s3 s4 d1 d2 d3 d4 : Nat) (q : Bytes) :
    udpLengthFieldOf (hdr28 t c sp dp l u s1 s2 s3 s4 d1 d2 d3 d4 ++ q) =
      l / 256 % 256 * 256 + l % 256 := by
  unfold udpLengthFieldOf
  rw [udpHeaderOf_hdr28]
  rfl

theorem udpCksumFieldOf_hdr28 (t c sp dp l u s1 s2 s3 s4 d1 d2 d3 d4 : Nat) (q : Bytes) :
    udpCksumFieldOf (hdr28 t c sp dp l u s1 s2 s3 s4 d1 d2 d3 d4 ++ q) =
      u / 256 % 256 * 256 + u % 256 := by
  unfold udpCksumFieldOf
  rw [udpHeaderOf_hdr28]
  rfl

theorem destPortOf_hdr28 (t c sp dp l u s1 s2 s3 s4 d1 d2 d3 d4 : Nat) (q : Bytes) :
    destPortOf (hdr28 t c sp dp l u s1 s2 s3 s4 d1 d2 d3 d4 ++ q) =
      dp / 256 % 256 * 256 + dp % 256 := by
  unfold destPortOf
  rw [udpHeaderOf_hdr28]
  rfl

theorem pseudoFromFrame_hdr28 (t c sp dp l u s1 s2 s3 s4 d1 d2 d3 d4 : Nat) (q : Bytes)
    (hl : l < 65536) :
    pseudoFromFrame (hdr28 t c sp dp l u s1 s2 s3 s4 d1 d2 d3 d4 ++ q) =
      pseudoLit12 s1 s2 s3 s4 d1 d2 d3 d4 l := by
  unfold pseudoFromFrame
  rw [srcIPOf_hdr28, destIPOf_hdr28, transportProtocolOf_hdr28, udpLengthFieldOf_hdr28]
  rw [show l / 256 % 256 * 256 + l % 256 = l from by omega]
  rfl

theorem zeroChecksumAt_ipLit20 (t c s1 s2 s3 s4 d1 d2 d3 d4 : Nat) :
    zeroChecksumAt 10 (ipLit20 t c s1 s2 s3 s4 d1 d2 d3 d4) =
      ipLit20 t 0 s1 s2 s3 s4 d1 d2 d3 d4 := rfl

theorem zeroChecksumAt_udpLit8 (sp dp l u : Nat) :
    zeroChecksumAt 6 (udpLit8 sp dp l u) = udpLit8 sp dp l 0 := rfl

theorem ipLit20_length (t c s1 s2 s3 s4 d1 d2 d3 d4 : Nat) :
    (ipLit20 t c s1 s2 s3 s4 d1 d2 d3 d4).length = 20 := rfl

theorem udpLit8_length (sp dp l u : Nat) : (udpLit8 sp dp l u).length = 8 := rfl

theorem pseudoLit12_length (s1 s2 s3 s4 d1 d2 d3 d4 lf : Nat) :
    (pseudoLit12 s1 s2 s3 s4 d1 d2 d3 d4 lf).length = 12 := rfl

/-! ## Helper lemmas: 16-bit arithmetic -/

theorem u16ofInt_lt (p : Int) : u16ofInt p < 65536 := by
  unfold u16ofInt
  omega

theorem intOfNat_u16 (p : Int) (h0 : 0 ≤ p) (h1 : p < 65536) :
    ((u16ofInt p : Nat) : Int) = p := by
  unfold u16ofInt
  omega

theorem udpLenField_lt (packet : Bytes) : udpLenField packet < 65536 := by
  unfold udpLenField
  omega

theorem sum16_ipLit20 (t c s1 s2 s3 s4 d1 d2 d3 d4 : Nat) (hc : c < 65536) :
    sum16 (ipLit20 t c s1 s2 s3 s4 d1 d2 d3 d4) =
      sum16 (ipLit20 t 0 s1 s2 s3 s4 d1 d2 d3 d4) + c := by
  simp only [ipLit20, sum16, words16, List.sum_cons, List.sum_nil]
  omega

theorem sum16_udpLit8 (sp dp l u : Nat) (hu : u < 65536) :
    sum16 (udpLit8 sp dp l u) = sum16 (udpLit8 sp dp l 0) + u := by
  simp only [udpLit8, sum16, words16, List.sum_cons, List.sum_nil]
  omega

/-! ## Helper lemmas: decoding an encoded frame -/

theorem udp4pkt_take_parse (packet : Bytes) (dest src : UDPAddr) (dip : Bytes) (K : Nat)
    (hip : dest.ip = some dip) (h4 : dip.length = 4) (hK : 28 ≤ K) :
    transportProtocolOf ((udp4pkt packet dest src).take K) = 17 ∧
    destIPOf ((udp4pkt packet dest src).take K) = dip ∧
    destPortOf ((udp4pkt packet dest src).take K) = u16ofInt dest.port ∧
    udpPayloadOf ((udp4pkt packet dest src).take K) = packet.take (K - 28) := by
  obtain ⟨d1, d2, d3, d4, hd4⟩ := exists_four dip h4
  have hd : addrField dest = [d1, d2, d3, d4] := by
    rw [addrField_eq_of_ip4 dest dip hip h4, hd4]
  obtain ⟨s1, s2, s3, s4, hs⟩ := exists_four (addrField src) (addrField_length src)
  have hlen : (hdr28 (ipTotalLen packet) (ipCkOf packet dest src) (u16ofInt src.port)
      (u16ofInt dest.port) (udpLenField packet) (udpCkOf packet dest src)
      s1 s2 s3 s4 d1 d2 d3 d4).length = 28 := hdr28_length _ _ _ _ _ _ _ _ _ _ _ _ _ _
  rw [udp4pkt_cons packet dest src s1 s2 s3 s4 d1 d2 d3 d4 hs hd,
    List.take_append_eq_append_take, hdr28_length,
    List.take_of_length_le (le_of_eq_of_le hlen hK)]
  refine ⟨transportProtocolOf_hdr28 _ _ _ _ _ _ _ _ _ _ _ _ _ _ _, ?_, ?_, ?_⟩
  · rw [destIPOf_hdr28]
    exact hd4.symm
  · rw [destPortOf_hdr28]
    have := u16ofInt_lt dest.port
    omega
  · exact udpPayloadOf_hdr28 _ _ _ _ _ _ _ _ _ _ _ _ _ _ _

/-! ## Helper lemmas: readFrom stepping -/

theorem readFrom_error (boundAddr : Option UDPAddr) (blen : Nat) (e : ConnError)
    (rest : List (Except ConnError Bytes)) :
    readFrom boundAddr blen (Except.error e :: rest) = some (Except.error e) := rfl

theorem readFrom_skip_proto (boundAddr : Option UDPAddr) (blen : Nat) (f : Bytes)
    (rest : List (Except ConnError Bytes))
    (h : transportProtocolOf (f.take (60 + 8 + blen)) ≠ 17) :
    readFrom boundAddr blen (Except.ok f :: rest) = readFrom boundAddr blen rest := by
  simp [readFrom, h]

theorem readFrom_skip_match (boundAddr : Option UDPAddr) (blen : Nat) (f : Bytes)
    (rest : List (Except ConnError Bytes))
    (hp : transportProtocolOf (f.take (60 + 8 + blen)) = 17)
    (hm : udpMatch (decodedAddr (f.take (60 + 8 + blen))) boundAddr = false) :
    readFrom boundAddr blen (Except.ok f :: rest) = readFrom boundAddr blen rest := by
  simp [readFrom, hp, hm]

theorem readFrom_found (boundAddr : Option UDPAddr) (blen : Nat) (f : Bytes)
    (rest : List (Except ConnError Bytes))
    (hp : transportProtocolOf (f.take (60 + 8 + blen)) = 17)
    (hm : udpMatch (decodedAddr (f.take (60 + 8 + blen))) boundAddr = true) :
    readFrom boundAddr blen (Except.ok f :: rest) =
      some (Except.ok (min blen (udpPayloadOf (f.take (60 + 8 + blen))).length,
        decodedAddr (f.take (60 + 8 + blen)),
        (udpPayloadOf (f.take (60 + 8 + blen))).take blen)) := by
  simp [readFrom, hp, hm]

/-! ## The claims -/

/-- C3: for every candidate address and every bound filter, the address
matcher udpMatch returns true exactly when the contract of spec section
4.1 holds: an absent bound filter always matches; a present bound IP
must equal the candidate IP (an absent bound IP is not compared); the
bound port must always equal the candidate port.  The contract is
transcribed from the words of the spec as specMatches. -/
theorem C3_udpMatch_follows_spec_contract (candidate : UDPAddr) (bound : Option UDPAddr) :
    udpMatch candidate bound = specMatches candidate bound := by
  cases bound with
  | none => rfl
  | some b =>
    cases hb : b.ip with
    | none => simp [udpMatch, specMatches, hb]
    | some bip =>
      cases he : ipEqual bip (ipBytes candidate.ip) with
      | false => simp [udpMatch, specMatches, hb, he]
      | true => simp [udpMatch, specMatches, hb, he]

/-- C8: for every destination address that is not a UDP address, WriteTo
returns the type-mismatch error immediately with zero bytes written and
hands nothing to the raw transport. -/
theorem C8_writeTo_type_mismatch (tx : Bytes → RawAddr → Nat × Option ConnError)
    (b : Bytes) (kind : Nat) (boundAddr : Option UDPAddr) :
    writeTo tx b (NetAddr.other kind) boundAddr =
      (some (0, some ConnError.mustSupplyUDPAddr), []) := rfl

/-- C9: every frame WriteTo hands to the raw transport is addressed to
the broadcast hardware address, six bytes with all bits set, regardless
of the destination address argument. -/
theorem C9_writeTo_broadcasts (tx : Bytes → RawAddr → Nat × Option ConnError)
    (b : Bytes) (addr : NetAddr) (boundAddr : Option UDPAddr) :
    (∀ w ∈ (writeTo tx b addr boundAddr).2, w.2 = RawAddr.mk BroadcastMac) ∧
    BroadcastMac = List.replicate 6 255 := by
  constructor
  · intro w hw
    cases addr with
    | other kind => simp [writeTo] at hw
    | udp a =>
      cases boundAddr with
      | none => simp [writeTo] at hw
      | some src =>
        simp only [writeTo, List.mem_singleton] at hw
        rw [hw]
  · rfl

/-- C9 witness: the broadcast addressing fact evaluated on a concrete
send through a working transport. -/
theorem C9_witness :
    (udp4pkt [120] destW srcW, RawAddr.mk BroadcastMac).2 = RawAddr.mk BroadcastMac ∧
    BroadcastMac = List.replicate 6 255 :=
  ⟨(C9_writeTo_broadcasts fullTx [120] (NetAddr.udp destW) (some srcW)).1 _
      (by simp [writeTo]),
    (C9_writeTo_broadcasts fullTx [120] (NetAddr.udp destW) (some srcW)).2⟩

/-- C10: the write path is only total when the bound address is present:
for a UDP destination, WriteTo with an absent bound address panics (the
encoder dereferences the bound address unconditionally), while WriteTo
with any present bound address returns a result; the read path matcher
nevertheless accepts an absent bound address and treats it as match-all. -/
theorem C10_writeTo_requires_bound (tx : Bytes → RawAddr → Nat × Option ConnError)
    (b : Bytes) (d : UDPAddr) :
    (writeTo tx b (NetAddr.udp d) none).1 = none ∧
    (∀ src : UDPAddr, ((writeTo tx b (NetAddr.udp d) (some src)).1).isSome = true) ∧
    (∀ a : UDPAddr, udpMatch a none = true) :=
  ⟨rfl, fun _ => rfl, fun _ => rfl⟩

/-- C1: contrary to the spec, a successful WriteTo does not return the
payload byte count: it passes through the raw transport count, which for
a transport that writes the whole frame is the frame byte count, 28
header bytes more than the payload, and therefore never the payload
length. -/
theorem C1_writeTo_returns_frame_byte_count (b : Bytes) (d src : UDPAddr) :
    (writeTo fullTx b (NetAddr.udp d) (some src)).1 = some (28 + b.length, none) ∧
    28 + b.length ≠ b.length := by
  constructor
  · show some (fullTx (udp4pkt b d src) ⟨BroadcastMac⟩) = _
    unfold fullTx
    rw [udp4pkt_length]
  · omega

/-- C2: round trip: encoding a payload to an IPv4 destination with a
16-bit nonzero port via udp4pkt and decoding the frame with the inbound
parsing logic recovers the payload bytes, the destination IP and the
destination port exactly. -/
theorem C2_roundtrip (packet : Bytes) (dest src : UDPAddr) (dip : Bytes)
    (hip : dest.ip = some dip) (h4 : dip.length = 4)
    (hp0 : 0 < dest.port) (hp1 : dest.port < 65536) :
    udpPayloadOf (udp4pkt packet dest src) = packet ∧
    destIPOf (udp4pkt packet dest src) = dip ∧
    ((destPortOf (udp4pkt packet dest src) : Nat) : Int) = dest.port ∧
    transportProtocolOf (udp4pkt packet dest src) = 17 := by
  have hF : (udp4pkt packet dest src).take (28 + packet.length) = udp4pkt packet dest src :=
    List.take_of_length_le (le_of_eq (udp4pkt_length packet dest src))
  have h := udp4pkt_take_parse packet dest src dip (28 + packet.length) hip h4 (by omega)
  rw [hF] at h
  refine ⟨?_, h.2.1, ?_, h.1⟩
  · rw [h.2.2.2, show 28 + packet.length - 28 = packet.length from by omega]
    exact List.take_length packet
  · rw [h.2.2.1]
    exact intOfNat_u16 dest.port (by omega) hp1

/-- C2 witness: the round trip evaluated on payload [1, 2, 3] sent to
255.255.255.255:67. -/
theorem C2_witness :
    destW.ip = some [255, 255, 255, 255] ∧ ([255, 255, 255, 255] : Bytes).length = 4 ∧
    (0 : Int) < destW.port ∧ destW.port < 65536 ∧
    (udpPayloadOf (udp4pkt [1, 2, 3] destW srcW) = [1, 2, 3] ∧
      destIPOf (udp4pkt [1, 2, 3] destW srcW) = [255, 255, 255, 255] ∧
      ((destPortOf (udp4pkt [1, 2, 3] destW srcW) : Nat) : Int) = destW.port ∧
      transportProtocolOf (udp4pkt [1, 2, 3] destW srcW) = 17) :=
  ⟨rfl, rfl, by decide, by decide,
    C2_roundtrip [1, 2, 3] destW srcW [255, 255, 255, 255] rfl rfl (by decide) (by decide)⟩

/-- C7: every outbound frame has UDP length field 8 + payload length,
IPv4 total length field 20 + UDP length, protocol field UDP (17) and TTL
field 30, for any addresses and any payload that fits the 16-bit length
fields. -/
theorem C7_frame_invariants (packet : Bytes) (dest src : UDPAddr)
    (hlen : 28 + packet.length < 65536) :
    udpLengthFieldOf (udp4pkt packet dest src) = 8 + packet.length ∧
    ipTotalLengthFieldOf (udp4pkt packet dest src) = 20 + (8 + packet.length) ∧
    transportProtocolOf (udp4pkt packet dest src) = 17 ∧
    ttlFieldOf (udp4pkt packet dest src) = 30 := by
  obtain ⟨s1, s2, s3, s4, hs⟩ := exists_four (addrField src) (addrField_length src)
  obtain ⟨d1, d2, d3, d4, hd⟩ := exists_four (addrField dest) (addrField_length dest)
  rw [udp4pkt_cons packet dest src s1 s2 s3 s4 d1 d2 d3 d4 hs hd,
    udpLengthFieldOf_hdr28, ipTotalLengthFieldOf_hdr28, transportProtocolOf_hdr28,
    ttlFieldOf_hdr28]
  have h1 : udpLenField packet = 8 + packet.length := by unfold udpLenField; omega
  have h2 : ipTotalLen packet = 20 + 8 + packet.length := by unfold ipTotalLen; omega
  rw [h1, h2]
  refine ⟨by omega, by omega, rfl, rfl⟩

/-- C7 witness: the header field invariants evaluated on payload
[1, 2, 3] sent from 0.0.0.0:68 to 255.255.255.255:67. -/
theorem C7_witness :
    28 + ([1, 2, 3] : Bytes).length < 65536 ∧
    (udpLengthFieldOf (udp4pkt [1, 2, 3] destW srcW) = 8 + ([1, 2, 3] : Bytes).length ∧
      ipTotalLengthFieldOf (udp4pkt [1, 2, 3] destW srcW) =
        20 + (8 + ([1, 2, 3] : Bytes).length) ∧
      transportProtocolOf (udp4pkt [1, 2, 3] destW srcW) = 17 ∧
      ttlFieldOf (udp4pkt [1, 2, 3] destW srcW) = 30) :=
  ⟨by decide, C7_frame_invariants [1, 2, 3] destW srcW (by decide)⟩

/-- C4: a frame whose IPv4 transport protocol field is not UDP is
skipped without being returned and without error, a UDP frame whose
decoded destination fails the matcher is likewise discarded, and the
payload of the subsequent matching UDP frame is returned on the same
ReadFrom call. -/
theorem C4_discard_scenario (g f2 payload : Bytes) (dest src : UDPAddr) (dip : Bytes)
    (bound : Option UDPAddr) (blen : Nat) (rest : List (Except ConnError Bytes))
    (hg : transportProtocolOf (g.take (60 + 8 + blen)) ≠ 17)
    (hf2p : transportProtocolOf (f2.take (60 + 8 + blen)) = 17)
    (hf2m : udpMatch (decodedAddr (f2.take (60 + 8 + blen))) bound = false)
    (hip : dest.ip = some dip) (h4 : dip.length = 4)
    (hp0 : 0 ≤ dest.port) (hp1 : dest.port < 65536)
    (hm : udpMatch ⟨some dip, dest.port⟩ bound = true)
    (hfit : payload.length ≤ blen) :
    readFrom bound blen (Except.ok g :: Except.ok f2 ::
        Except.ok (udp4pkt payload dest src) :: rest) =
      some (Except.ok (payload.length, (⟨some dip, dest.port⟩ : UDPAddr), payload)) := by
  have hparse := udp4pkt_take_parse payload dest src dip (60 + 8 + blen) hip h4 (by omega)
  have haddr : decodedAddr ((udp4pkt payload dest src).take (60 + 8 + blen)) =
      (⟨some dip, dest.port⟩ : UDPAddr) := by
    unfold decodedAddr
    rw [hparse.2.1, hparse.2.2.1, intOfNat_u16 dest.port hp0 hp1]
  rw [readFrom_skip_proto bound blen g _ hg,
    readFrom_skip_match bound blen f2 _ hf2p hf2m,
    readFrom_found bound blen _ rest hparse.1 (by rw [haddr]; exact hm),
    haddr, hparse.2.2.2, List.length_take, List.take_take]
  have e1 : min blen (min (60 + 8 + blen - 28) payload.length) = payload.length := by omega
  have e2 : min blen (60 + 8 + blen - 28) = blen := by omega
  rw [e1, e2, List.take_of_length_le hfit]

/-- C4 witness: a TCP frame and a non-matching UDP frame precede a
matching frame carrying [1, 2, 3]; the one ReadFrom call returns the
matching payload. -/
theorem C4_witness :
    transportProtocolOf
      (([69, 0, 0, 29, 0, 0, 0, 0, 30, 6, 0, 0, 0, 0, 0, 0, 255, 255, 255, 255] : Bytes).take
        (60 + 8 + 10)) ≠ 17 ∧
    transportProtocolOf ((udp4pkt [9, 9] ⟨some [1, 2, 3, 4], 99⟩ srcW).take (60 + 8 + 10)) =
      17 ∧
    udpMatch (decodedAddr ((udp4pkt [9, 9] ⟨some [1, 2, 3, 4], 99⟩ srcW).take (60 + 8 + 10)))
      (some ⟨none, 67⟩) = false ∧
    readFrom (some ⟨none, 67⟩) 10
      (Except.ok [69, 0, 0, 29, 0, 0, 0, 0, 30, 6, 0, 0, 0, 0, 0, 0, 255, 255, 255, 255] ::
        Except.ok (udp4pkt [9, 9] ⟨some [1, 2, 3, 4], 99⟩ srcW) ::
        Except.ok (udp4pkt [1, 2, 3] destW srcW) :: []) =
      some (Except.ok (([1, 2, 3] : Bytes).length,
        (⟨some [255, 255, 255, 255], 67⟩ : UDPAddr), [1, 2, 3])) :=
  ⟨by decide, by decide, by decide,
    C4_discard_scenario
      [69, 0, 0, 29, 0, 0, 0, 0, 30, 6, 0, 0, 0, 0, 0, 0, 255, 255, 255, 255]
      (udp4pkt [9, 9] ⟨some [1, 2, 3, 4], 99⟩ srcW) [1, 2, 3] destW srcW
      [255, 255, 255, 255] (some ⟨none, 67⟩) 10 []
      (by decide) (by decide) (by decide) rfl rfl (by decide) (by decide) (by decide)
      (by decide)⟩

/-- C5: a matching frame whose payload is strictly longer than the
caller buffer yields exactly the buffer length, the returned bytes are
the leading bytes of the payload (a true decomposition of the payload),
and no error is produced. -/
theorem C5_truncation (payload : Bytes) (dest src : UDPAddr) (dip : Bytes)
    (bound : Option UDPAddr) (blen : Nat) (rest : List (Except ConnError Bytes))
    (hip : dest.ip = some dip) (h4 : dip.length = 4)
    (hp0 : 0 ≤ dest.port) (hp1 : dest.port < 65536)
    (hm : udpMatch ⟨some dip, dest.port⟩ bound = true)
    (hshort : blen < payload.length) :
    readFrom bound blen (Except.ok (udp4pkt payload dest src) :: rest) =
      some (Except.ok (blen, (⟨some dip, dest.port⟩ : UDPAddr), payload.take blen)) ∧
    payload.take blen ++ payload.drop blen = payload := by
  have hparse := udp4pkt_take_parse payload dest src dip (60 + 8 + blen) hip h4 (by omega)
  have haddr : decodedAddr ((udp4pkt payload dest src).take (60 + 8 + blen)) =
      (⟨some dip, dest.port⟩ : UDPAddr) := by
    unfold decodedAddr
    rw [hparse.2.1, hparse.2.2.1, intOfNat_u16 dest.port hp0 hp1]
  constructor
  · rw [readFrom_found bound blen _ rest hparse.1 (by rw [haddr]; exact hm),
      haddr, hparse.2.2.2, List.length_take, List.take_take]
    have e1 : min blen (min (60 + 8 + blen - 28) payload.length) = blen := by omega
    have e2 : min blen (60 + 8 + blen - 28) = blen := by omega
    rw [e1, e2]
  · exact List.take_append_drop blen payload

/-- C5 witness: a five byte payload read into a two byte buffer returns
two bytes, the leading bytes of the payload. -/
theorem C5_witness :
    destW.ip = some [255, 255, 255, 255] ∧ ([255, 255, 255, 255] : Bytes).length = 4 ∧
    (0 : Int) ≤ destW.port ∧ destW.port < 65536 ∧
    udpMatch ⟨some [255, 255, 255, 255], destW.port⟩ (some ⟨none, 67⟩) = true ∧
    2 < ([1, 2, 3, 4, 5] : Bytes).length ∧
    (readFrom (some ⟨none, 67⟩) 2 (Except.ok (udp4pkt [1, 2, 3, 4, 5] destW srcW) :: []) =
        some (Except.ok (2, (⟨some [255, 255, 255, 255], 67⟩ : UDPAddr),
          ([1, 2, 3, 4, 5] : Bytes).take 2)) ∧
      ([1, 2, 3, 4, 5] : Bytes).take 2 ++ ([1, 2, 3, 4, 5] : Bytes).drop 2 =
        [1, 2, 3, 4, 5]) :=
  ⟨rfl, rfl, by decide, by decide, by decide, by decide,
    C5_truncation [1, 2, 3, 4, 5] destW srcW [255, 255, 255, 255] (some ⟨none, 67⟩) 2 []
      rfl rfl (by decide) (by decide) (by decide) (by decide)⟩

/-- C6: for every payload and address pair, the IPv4 header checksum
field is the ones-complement of the checksum recomputed over the header
with its checksum field zeroed, the UDP checksum field is the
ones-complement of the checksum recomputed over the pseudo-header, the
UDP header with its checksum field zeroed and the payload, and both
checksums validate: folding the full sums, checksum fields included,
yields the all-ones word. -/
theorem C6_checksum_validity (packet : Bytes) (dest src : UDPAddr) :
    ipCksumFieldOf (udp4pkt packet dest src) =
      checksum16 (zeroChecksumAt 10 (ipHeaderOf (udp4pkt packet dest src))) ∧
    foldCarry (sum16 (ipHeaderOf (udp4pkt packet dest src))) = 65535 ∧
    udpCksumFieldOf (udp4pkt packet dest src) =
      checksum16 (pseudoFromFrame (udp4pkt packet dest src) ++
        zeroChecksumAt 6 (udpHeaderOf (udp4pkt packet dest src)) ++
        udpPayloadOf (udp4pkt packet dest src)) ∧
    foldCarry (sum16 (pseudoFromFrame (udp4pkt packet dest src) ++
      udpHeaderOf (udp4pkt packet dest src) ++ udpPayloadOf (udp4pkt packet dest src))) =
      65535 := by
  obtain ⟨s1, s2, s3, s4, hs⟩ := exists_four (addrField src) (addrField_length src)
  obtain ⟨d1, d2, d3, d4, hd⟩ := exists_four (addrField dest) (addrField_length dest)
  have hcip : ipCkOf packet dest src < 65536 := checksum16_lt _
  have hcu : udpCkOf packet dest src < 65536 := checksum16_lt _
  rw [udp4pkt_cons packet dest src s1 s2 s3 s4 d1 d2 d3 d4 hs hd,
    ipHeaderOf_hdr28, udpHeaderOf_hdr28, udpPayloadOf_hdr28, ipCksumFieldOf_hdr28,
    udpCksumFieldOf_hdr28,
    pseudoFromFrame_hdr28 _ _ _ _ _ _ _ _ _ _ _ _ _ _ _ (udpLenField_lt packet),
    zeroChecksumAt_ipLit20, zeroChecksumAt_udpLit8]
  have hip0 := ipv4hdrOf_lit packet dest src 0 s1 s2 s3 s4 d1 d2 d3 d4 hs hd
  have hPpar : (pseudoLit12 s1 s2 s3 s4 d1 d2 d3 d4 (udpLenField packet)).length % 2 = 0 := by
    rw [pseudoLit12_length]
  have hPH0par : ((pseudoLit12 s1 s2 s3 s4 d1 d2 d3 d4 (udpLenField packet) ++
      udpLit8 (u16ofInt src.port) (u16ofInt dest.port) (udpLenField packet) 0)).length % 2 =
      0 := by
    rw [List.length_append, pseudoLit12_length, udpLit8_length]
  have hPHUpar : ((pseudoLit12 s1 s2 s3 s4 d1 d2 d3 d4 (udpLenField packet) ++
      udpLit8 (u16ofInt src.port) (u16ofInt dest.port) (udpLenField packet)
        (udpCkOf packet dest src))).length % 2 = 0 := by
    rw [List.length_append, pseudoLit12_length, udpLit8_length]
  have hsplit : sum16 (pseudoOf packet dest src ++ udphdrOf packet dest src 0 ++ packet) =
      sum16 (pseudoLit12 s1 s2 s3 s4 d1 d2 d3 d4 (udpLenField packet)) +
        sum16 (udpLit8 (u16ofInt src.port) (u16ofInt dest.port) (udpLenField packet) 0) +
        sum16 packet := by
    rw [pseudoOf_lit packet dest src s1 s2 s3 s4 d1 d2 d3 d4 hs hd, udphdrOf_lit,
      sum16_append _ _ hPH0par, sum16_append _ _ hPpar]
  refine ⟨?_, ?_, ?_, ?_⟩
  · rw [← hip0, show checksum16 (ipv4hdrOf packet dest src 0) = ipCkOf packet dest src
      from rfl]
    omega
  · rw [sum16_ipLit20 (ipTotalLen packet) (ipCkOf packet dest src) s1 s2 s3 s4 d1 d2 d3 d4
      hcip, ← hip0]
    exact foldCarry_valid (sum16 (ipv4hdrOf packet dest src 0))
  · rw [← pseudoOf_lit packet dest src s1 s2 s3 s4 d1 d2 d3 d4 hs hd,
      ← udphdrOf_lit packet dest src 0,
      show checksum16 (pseudoOf packet dest src ++ udphdrOf packet dest src 0 ++ packet) =
        udpCkOf packet dest src from rfl]
    omega
  · rw [sum16_append _ _ hPHUpar, sum16_append _ _ hPpar,
      sum16_udpLit8 (u16ofInt src.port) (u16ofInt dest.port) (udpLenField packet)
        (udpCkOf packet dest src) hcu]
    have hU : udpCkOf packet dest src =
        65535 - foldCarry
          (sum16 (pseudoLit12 s1 s2 s3 s4 d1 d2 d3 d4 (udpLenField packet)) +
            sum16 (udpLit8 (u16ofInt src.port) (u16ofInt dest.port) (udpLenField packet) 0) +
            sum16 packet) := by
      rw [← hsplit]; rfl
    rw [hU]
    have harr : ∀ X : Nat,
        sum16 (pseudoLit12 s1 s2 s3 s4 d1 d2 d3 d4 (udpLenField packet)) +
          (sum16 (udpLit8 (u16ofInt src.port) (u16ofInt dest.port) (udpLenField packet) 0) +
            X) + sum16 packet =
        sum16 (pseudoLit12 s1 s2 s3 s4 d1 d2 d3 d4 (udpLenField packet)) +
          sum16 (udpLit8 (u16ofInt src.port) (u16ofInt dest.port) (udpLenField packet) 0) +
          sum16 packet + X := fun X => by omega
    rw [harr]
    exact foldCarry_valid _
